import Mathlib

/-!
Verification development for the pipeline orchestration core of
`bcbio/pipeline/main.py`.

Python dictionaries are modelled as association structures: assignment
`d[k] = v` replaces the value at the first occurrence of `k` in place or
appends a fresh entry at the end.  Flat dictionaries whose shape the code
relies on are association lists (`List (String × _)`); arbitrarily nested
YAML-style values are the mutual inductives `JVal`/`JObj`.  The entry order
of an association list records insertion history; it is a representation
convention only, because the source is Python 2 and CPython 2 dict iteration
is hash-ordered, not insertion-ordered.  Theorems about groupings therefore
draw only order-insensitive conclusions (membership, keyed lookup, counts);
the evaluation theorems for the state-diff bug fix one concrete iteration
order of the dictionaries involved, and the defect they exhibit arises under
every iteration order.  Fallible code (`sys.exit`, `assert`) is modelled
with `Except`.  External collaborators (`config_utils.update_w_custom`,
`dd.get_sample_name`, the scheduler capability) are taken as opaque function
parameters.
-/

namespace BcbioMain

mutual

/-- Nested YAML-style value: scalar string, scalar integer, or mapping. -/
inductive JVal where
  | str : String → JVal
  | num : Int → JVal
  | obj : JObj → JVal
deriving DecidableEq

/-- Ordered entries of a mapping value (a Python dict of nested values). -/
inductive JObj where
  | nil : JObj
  | cons : String → JVal → JObj → JObj
deriving DecidableEq

end

instance {ε α : Type} [DecidableEq ε] [DecidableEq α] : DecidableEq (Except ε α)
  | .ok x, .ok y => decidable_of_iff (x = y) (by simp)
  | .error e, .error f => decidable_of_iff (e = f) (by simp)
  | .ok _, .error _ => isFalse (fun h => Except.noConfusion h)
  | .error _, .ok _ => isFalse (fun h => Except.noConfusion h)

/-- Python `d.get(k)` on a nested mapping. -/
def lookupJ : JObj → String → Option JVal
  | .nil, _ => none
  | .cons k v r, key => if k = key then some v else lookupJ r key

/-- Python `d[k] = v` on a nested mapping: replace in place or append. -/
def dictSetJ : JObj → String → JVal → JObj
  | .nil, k, v => .cons k v .nil
  | .cons k0 v0 r, k, v =>
    if k0 = k then .cons k0 v r else .cons k0 v0 (dictSetJ r k v)

/-- Mapping of string keys to values of type `β` (one level of a dict). -/
abbrev Dict (β : Type) := List (String × β)

/-- Mapping tool name → (parameter → value), the shape of a `resources` block. -/
abbrev ResMap := Dict (Dict JVal)

/-- Python dict assignment `d[k] = v` on an association list: replace the
value at the first matching key keeping its position, or append at the end. -/
def dictSet {β : Type} : Dict β → String → β → Dict β
  | [], k, v => [(k, v)]
  | (k0, v0) :: rest, k, v =>
    if k0 = k then (k0, v) :: rest else (k0, v0) :: dictSet rest k v

/-- Sample descriptor from the run specification.  Keys the pairing code
touches are explicit fields; everything else sits in `other`.  `none` models
an absent key. -/
structure Sample where
  description : String
  analysis : Option String
  algorithm : Option JVal
  files : Option JVal
  resources : Option ResMap
  other : Dict JVal
deriving DecidableEq

/-- The concrete Pipeline subclasses of `AbstractPipeline` in the source. -/
inductive Pipeline where
  | variant2
  | snpCalling
  | variant
  | standard
  | minimal
  | sailfish
  | rnaseq
  | smallRnaseq
  | chipseq
deriving DecidableEq

/-- The declared `name` class attribute of each Pipeline subclass. -/
def Pipeline.name : Pipeline → String
  | .variant2 => "variant2"
  | .snpCalling => "SNP calling"
  | .variant => "variant"
  | .standard => "Standard"
  | .minimal => "Minimal"
  | .sailfish => "sailfish"
  | .rnaseq => "RNA-seq"
  | .smallRnaseq => "smallRNA-seq"
  | .chipseq => "chip-seq"

/-- All subclasses of `AbstractPipeline`, as `utils.itersubclasses` finds them. -/
def allPipelines : List Pipeline :=
  [.variant2, .snpCalling, .variant, .standard, .minimal,
   .sailfish, .rnaseq, .smallRnaseq, .chipseq]

/-- Model of the Python string method `lower`, written so that it evaluates
by kernel reduction. -/
def lowerStr (s : String) : String :=
  ⟨s.data.map Char.toLower⟩

/-- Registry built in `_get_pipeline`: lowercased declared name → variant. -/
def SUPPORTED_PIPELINES : List (String × Pipeline) :=
  allPipelines.map (fun p => (lowerStr p.name, p))

/-- Error message issued by `_get_pipeline` before `sys.exit(1)`. -/
def pipelineErrMsg : String :=
  "Cannot determine which type of analysis to run, set in the run_info under details."

/-- Lowercased `analysis` value of a descriptor; an absent key reads as the
empty string (`item.get` with a default). -/
def analysisKey (s : Sample) : String :=
  lowerStr (s.analysis.getD "")

/-- Model of `_get_pipeline`: case-insensitive registry lookup, `sys.exit(1)`
on a miss. -/
def _get_pipeline (s : Sample) : Except String Pipeline :=
  match SUPPORTED_PIPELINES.lookup (analysisKey s) with
  | some p => .ok p
  | none => .error pipelineErrMsg

/-- Parsed run specification: either a bare list of descriptors or a mapping
with a `details` list and an optional global `resources` overlay. -/
inductive RunSpec where
  | bare (details : List Sample)
  | mapped (details : List Sample) (resources : Option ResMap)
deriving DecidableEq

/-- Lines 492-498 of the source: extract the descriptor list and the global
`resources` overlay (defaulting to the empty mapping). -/
def parseRunSpec : RunSpec → List Sample × ResMap
  | .bare ds => (ds, [])
  | .mapped ds rs => (ds, rs.getD [])

/-- Merge of the global `resources` overlay into a per-sample resources map:
for each tool of the overlay ensure an entry exists, then set every key of
the overlay unconditionally (lines 508-512 of the source). -/
def mergeGlobal (base : ResMap) (global : ResMap) : ResMap :=
  global.foldl
    (fun res pr =>
      let res1 := if (res.lookup pr.1).isSome then res else dictSet res pr.1 []
      pr.2.foldl
        (fun r kv => dictSet r pr.1 (dictSet ((r.lookup pr.1).getD []) kv.1 kv.2))
        res1)
    base

/-- The scratch copy `usample` folded into the shared configuration: `files`
deleted, `algorithm` popped, `resources` ensured present with the global
overlay merged in. -/
def scratchSample (s : Sample) (global : ResMap) : Sample :=
  { s with
    files := none
    algorithm := none
    resources := some (mergeGlobal (s.resources.getD []) global) }

/-- The real descriptor appended to `ready_samples`: `files` deleted and
`resources` reset to the empty mapping (line 514 of the source). -/
def readySample (s : Sample) : Sample :=
  { s with files := none, resources := some [] }

/-- The list comprehension `[(x, _get_pipeline(x)) for x in ready_samples]`:
resolution aborts the whole run at the first unresolvable descriptor. -/
def resolvePairs : List Sample → Except String (List (Sample × Pipeline))
  | [] => .ok []
  | x :: rest =>
    match _get_pipeline x with
    | .error e => .error e
    | .ok p =>
      match resolvePairs rest with
      | .error e => .error e
      | .ok ps => .ok ((x, p) :: ps)

/-- Groups of singleton batches keyed by Pipeline variant. -/
abbrev Groups := List (Pipeline × List (List Sample))

/-- One `d[x[1]].append([x[0]])` step of the defaultdict grouping. -/
def addToGroups : Groups → Pipeline → List Sample → Groups
  | [], p, b => [(p, [b])]
  | (q, bs) :: rest, p, b =>
    if q = p then (q, bs ++ [b]) :: rest else (q, bs) :: addToGroups rest p b

/-- The `defaultdict(list)` grouping loop at the end of pairing.  The list
order of the resulting `Groups` records insertion history; the iteration
order of the real CPython 2 defaultdict (keyed by class objects, hashed by
identity) is implementation-defined, so downstream theorems use this order
only through order-insensitive statements. -/
def groupPairs (ps : List (Sample × Pipeline)) : Groups :=
  ps.foldl (fun d xp => addToGroups d xp.2 [xp.1]) []

/-- Model of `_pair_samples_with_pipelines`.  The shared configuration and
the external `config_utils.update_w_custom` collaborator are abstract
(`Config`, `upd`).  The source interleaves, per descriptor, the shared-config
update with the construction of the ready descriptor; the two accumulations
are independent, so they are written as a fold and a map. -/
def _pair_samples_with_pipelines {Config : Type} (upd : Config → Sample → Config)
    (spec : RunSpec) (config : Config) : Except String (Groups × Config) :=
  let sr := parseRunSpec spec
  let ready := sr.1.map readySample
  let config2 := sr.1.foldl (fun c s => upd c (scratchSample s sr.2)) config
  match resolvePairs ready with
  | .error e => .error e
  | .ok paired => .ok (groupPairs paired, config2)

/-! ## World Watcher -/

/-- Filesystem as observed by the watcher: a set of directory paths and a set
of file paths. -/
structure FS where
  dirs : List String
  files : List String
deriving DecidableEq

/-- Model of `utils.safe_makedir`: create the directory if it is absent. -/
def safe_makedir (fs : FS) (p : String) : FS :=
  if fs.dirs.contains p then fs else { fs with dirs := fs.dirs ++ [p] }

/-- Value stored in the `_lworld` slot of the watcher.  Python is dynamically
typed here: `initialize` stores a name → unit mapping while `report` stores
the raw list of batches, so the slot is a sum. -/
inductive WorldSnap where
  | asMap (m : JObj)
  | asList (w : List (List JVal))
deriving DecidableEq

/-- State of a `_WorldWatcher` instance.  When constructed disabled the
snapshot attributes are never assigned in the source; the defaults here are
never observed in that case. -/
structure WWState where
  work_dir : String
  is_on : Bool
  out_dir : String
  lworld : WorldSnap
  lfiles : List String
deriving DecidableEq

/-- Model of `_WorldWatcher.__init__`: records the flag and, only when
enabled, creates the `world2cwl` output directory. -/
def wwMk (work_dir : String) (is_on : Bool) (fs : FS) : WWState × FS :=
  if is_on then
    ({ work_dir := work_dir, is_on := true, out_dir := work_dir ++ "/world2cwl",
       lworld := .asMap .nil, lfiles := [] },
     safe_makedir fs (work_dir ++ "/world2cwl"))
  else
    ({ work_dir := work_dir, is_on := false, out_dir := "",
       lworld := .asMap .nil, lfiles := [] }, fs)

/-- Model of `_WorldWatcher._find_files`: relative paths of the files below
the working directory. -/
def _find_files (fs : FS) (work_dir : String) : List String :=
  (fs.files.filter (fun p => p.startsWith (work_dir ++ "/"))).map
    (fun p => p.drop (work_dir ++ "/").length)

/-- Loop body of `_WorldWatcher._items_to_world`: the `assert len(item) == 1`
is modelled as an `Except.error`. -/
def itemsGo (getName : JVal → String) : JObj → List (List JVal) → Except String JObj
  | world, [] => .ok world
  | world, item :: rest =>
    match item with
    | [x] => itemsGo getName (dictSetJ world (getName x) x) rest
    | _ => .error "AssertionError: len(item) == 1"

/-- Model of `_WorldWatcher._items_to_world`; `dd.get_sample_name` is the
opaque parameter `getName`. -/
def _items_to_world (getName : JVal → String) (items : List (List JVal)) :
    Except String JObj :=
  itemsGo getName .nil items

/-- Model of `toolz.update_in` with a constant function: set the value at the
key path, creating intermediate mappings as needed and keeping siblings.
The watcher never hits a non-mapping intermediate value; such a value is
replaced by a fresh mapping here. -/
def update_in (d : JObj) : List String → JVal → JObj
  | [], _ => d
  | [k], v => dictSetJ d k v
  | k :: ks, v =>
    let sub := match lookupJ d k with
      | some (.obj m) => m
      | _ => .nil
    dictSetJ d k (.obj (update_in sub ks v))

/-- Left fold over the entries of a mapping, in order. -/
def foldEntries (f : JObj → String → JVal → JObj) : JObj → JObj → JObj
  | out, .nil => out
  | out, .cons k v r => foldEntries f (f out k v) r

mutual

/-- The `for key, val in new.items()` loop of `_WorldWatcher._compare_dicts`,
threading the accumulated output mapping. -/
def cmp_entries (orig : JObj) (ns : List String) : JObj → JObj → JObj
  | .nil, out => out
  | .cons key val rest, out =>
    cmp_entries orig ns rest (cmp_one orig ns key val out)

/-- One iteration of the `_compare_dicts` loop: recurse when both values are
mappings, merging the recursive result at its top-level key only; otherwise
record the new value at the full namespaced path when it differs. -/
def cmp_one (orig : JObj) (ns : List String) (key : String) (val : JVal)
    (out : JObj) : JObj :=
  match val, lookupJ orig key with
  | .obj nv, some (.obj ov) =>
    foldEntries (fun o k v => update_in o [k] v) out
      (cmp_entries ov (ns ++ [key]) nv .nil)
  | v, ov => if ov = some v then out else update_in out (ns ++ [key]) v

end

/-- Model of `_WorldWatcher._compare_dicts`. -/
def _compare_dicts (orig new : JObj) (ns : List String) : JObj :=
  cmp_entries orig ns new .nil

/-- Model of `_WorldWatcher.initialize`. -/
def wwInit (getName : JVal → String) (st : WWState) (fs : FS)
    (world : List (List JVal)) : Except String WWState :=
  if st.is_on then
    match _items_to_world getName world with
    | .error e => .error e
    | .ok m =>
      .ok { st with lfiles := _find_files fs st.work_dir, lworld := .asMap m }
  else
    .ok st

/-- Diff output printed by one enabled `report` call. -/
structure WWReport where
  step : String
  file_changes : List String
  world_changes : JObj
deriving DecidableEq

/-- Model of `_WorldWatcher.report`.  Note line 179 of the source stores the
raw `world` argument in `_lworld`, not `_items_to_world(world)`; when the
stored snapshot is a raw list, `tz.get_in` inside `_compare_dicts` misses on
every key, which matches comparing against the empty mapping. -/
def wwReport (getName : JVal → String) (st : WWState) (fs : FS) (step : String)
    (world : List (List JVal)) : Except String (WWState × Option WWReport) :=
  if st.is_on then
    let new_files := _find_files fs st.work_dir
    let file_changes := new_files.filter (fun f => !(st.lfiles.contains f))
    match _items_to_world getName world with
    | .error e => .error e
    | .ok newWorld =>
      let origDict := match st.lworld with
        | .asMap m => m
        | .asList _ => .nil
      let world_changes := _compare_dicts origDict newWorld []
      .ok ({ st with lfiles := new_files, lworld := .asList world },
           some { step := step, file_changes := file_changes,
                  world_changes := world_changes })
  else
    .ok (st, none)

/-- A call made against a watcher instance. -/
inductive WWOp where
  | initOp (world : List (List JVal))
  | reportOp (step : String) (world : List (List JVal))
deriving DecidableEq

/-- Run a sequence of watcher calls against an unchanging filesystem,
collecting every diff report that is printed. -/
def runOps (getName : JVal → String) (st : WWState) (fs : FS) :
    List WWOp → Except String (WWState × List WWReport)
  | [] => .ok (st, [])
  | .initOp w :: rest =>
    match wwInit getName st fs w with
    | .error e => .error e
    | .ok st2 => runOps getName st2 fs rest
  | .reportOp s w :: rest =>
    match wwReport getName st fs s w with
    | .error e => .error e
    | .ok (st2, r) =>
      match runOps getName st2 fs rest with
      | .error e => .error e
      | .ok (stf, rs) => .ok (stf, r.toList ++ rs)

/-! ## Pipeline run procedures and aliases -/

/-- Ordered operation sequence of `Variant2Pipeline.run`: every dispatched
stage name and external combinator, in source order. -/
def variant2Steps : List String :=
  ["organize_samples", "prep_align_inputs", "disambiguate_split",
   "process_alignment", "disambiguate.resolve",
   "alignprep.merge_split_alignments", "prep_samples",
   "postprocess_alignment", "combine_sample_regions",
   "region.clean_sample_data", "structural.run:initial", "hla.run",
   "region.parallel_prep_region", "genotype.parallel_variantcall_region",
   "joint.square_off", "postprocess_variants", "split_variants_by_sample",
   "region.delayed_bamprep_merge", "compare_to_rm",
   "genotype.combine_multiple_callers", "ensemble.combine_calls_parallel",
   "validate.summarize_grading", "structural.run:standard",
   "structural.run:ensemble", "validate_sv", "heterogeneity.run",
   "population.prep_db_parallel", "qcsummary.generate_parallel",
   "archive.compress", "upload_samples", "upload_samples_project"]

/-- Ordered operation sequence of `StandardPipeline.run`. -/
def standardSteps : List String :=
  ["organize_samples", "process_alignment", "prep_samples",
   "postprocess_alignment", "combine_sample_regions",
   "region.clean_sample_data", "qcsummary.generate_parallel",
   "upload_samples", "upload_samples_project"]

/-- Ordered operation sequence of `SailfishPipeline.run`. -/
def sailfishSteps : List String :=
  ["organize_samples", "prepare_sample", "trim_sample", "run_sailfish",
   "upload_samples", "upload_samples_project"]

/-- Ordered operation sequence of `RnaseqPipeline.run`. -/
def rnaseqSteps : List String :=
  ["organize_samples", "prepare_sample", "trim_sample", "disambiguate_split",
   "process_alignment", "disambiguate.resolve",
   "rnaseq.assemble_transcripts", "rnaseq.quantitate_expression_parallel",
   "rnaseq.quantitate_expression_noparallel", "rnaseq.combine_files",
   "rnaseq.rnaseq_variant_calling", "qcsummary.generate_parallel",
   "upload_samples", "upload_samples_project"]

/-- Ordered operation sequence of `smallRnaseqPipeline.run`. -/
def smallRnaseqSteps : List String :=
  ["organize_samples", "prepare_sample", "trim_srna_sample",
   "seqcluster_prepare", "srna_alignment", "srna_annotation",
   "seqcluster_cluster", "qcsummary.generate_parallel", "srna_report",
   "upload_samples", "upload_samples_project"]

/-- Ordered operation sequence of `ChipseqPipeline.run`. -/
def chipseqSteps : List String :=
  ["organize_samples", "prepare_sample", "trim_sample", "disambiguate_split",
   "process_alignment", "disambiguate.resolve", "clean_chipseq_alignment",
   "qcsummary.generate_parallel", "upload_samples",
   "upload_samples_project"]

/-- The `run` procedure each variant resolves to.  `SNPCallingPipeline`,
`VariantPipeline` and `MinimalPipeline` declare no `run` of their own, so
attribute lookup finds the run of the base class they alias. -/
def pipelineSteps : Pipeline → List String
  | .variant2 => variant2Steps
  | .snpCalling => variant2Steps
  | .variant => variant2Steps
  | .standard => standardSteps
  | .minimal => standardSteps
  | .sailfish => sailfishSteps
  | .rnaseq => rnaseqSteps
  | .smallRnaseq => smallRnaseqSteps
  | .chipseq => chipseqSteps

/-- Drive a batch of work units through the ordered steps of a variant using
the opaque scheduler capability `sched`; returns the final batch and the
trace of dispatched step names. -/
def Pipeline.runWith (p : Pipeline) (sched : String → List (List JVal) → List (List JVal))
    (w : List (List JVal)) : List (List JVal) × List String :=
  (pipelineSteps p).foldl (fun acc n => (sched n acc.1, acc.2 ++ [n])) (w, [])

/-! ## Top-level entry point -/

/-- The `parallel` options consulted by `run_main`. -/
structure ParallelCfg where
  ptype : String
  scheduler : Option String
  queue : Option String
deriving DecidableEq

/-- Fatal startup failures of `run_main`. -/
inductive MainErr where
  | missingScheduler
  | missingQueue
  | unexpectedParallelType (t : String)
deriving DecidableEq

/-- Model of the execution-mode dispatch in `run_main` (lines 36-49): on
success it returns the (possibly queue-defaulted) options that `_run_toplevel`
is entered with; the assertion failures and the unexpected-type `ValueError`
are the fatal startup errors. -/
def run_main (p : ParallelCfg) : Except MainErr ParallelCfg :=
  if p.ptype = "local" ∨ p.ptype = "clusterk" then .ok p
  else if p.ptype = "ipython" then
    match p.scheduler with
    | none => .error .missingScheduler
    | some s =>
      if s ≠ "sge" then
        match p.queue with
        | none => .error .missingQueue
        | some _ => .ok p
      else if p.queue = none ∨ p.queue = some "" then .ok { p with queue := some "" }
      else .ok p
  else .error (.unexpectedParallelType p.ptype)

/-! ## Characterization of the defaultdict grouping -/

/-- Distinct pipelines of a paired list, in order of first occurrence. -/
def firstKeys : List (Sample × Pipeline) → List Pipeline
  | [] => []
  | xp :: rest => xp.2 :: (firstKeys rest).filter (fun q => q ≠ xp.2)

/-- The singleton batches of the work units routed to variant `p`, in input
order. -/
def groupOf (ps : List (Sample × Pipeline)) (p : Pipeline) : List (List Sample) :=
  (ps.filter (fun xp => xp.2 = p)).map (fun xp => [xp.1])

/-- Closed form of the grouping: one entry per distinct pipeline in first
occurrence order, carrying that pipeline's units in input order. -/
def groupsSpec (ps : List (Sample × Pipeline)) : Groups :=
  (firstKeys ps).map (fun p => (p, groupOf ps p))

/-- First-occurrence deduplication of a list. -/
def keyDedup {α : Type} [DecidableEq α] : List α → List α
  | [] => []
  | a :: l => a :: (keyDedup l).filter (fun b => b ≠ a)

/-- The pipeline a resolvable descriptor pairs with. -/
def pipeOfSample (s : Sample) : Pipeline :=
  (SUPPORTED_PIPELINES.lookup (analysisKey s)).getD .variant2

/-- The paired list built by pairing when every descriptor resolves. -/
def pairedOf (samples : List Sample) : List (Sample × Pipeline) :=
  samples.map (fun s => (readySample s, pipeOfSample s))

/-- All work units of a grouping, flattened in group order. -/
def allUnits (d : Groups) : List Sample :=
  d.flatMap (fun pb => pb.2.flatten)

/-- Value of the resources entry for tool `prog`, key `key`, when both
levels hit. -/
def lookupRes (m : ResMap) (prog key : String) : Option JVal :=
  (m.lookup prog).bind (fun d => d.lookup key)

/-- Plain fold of dict assignments, the shape of the inner value built while
merging one tool of the overlay. -/
def fold2 (d0 : Dict JVal) (pkvs : Dict JVal) : Dict JVal :=
  pkvs.foldl (fun d kv => dictSet d kv.1 kv.2) d0

/-- The inner merge loop for one tool `prog` of the overlay. -/
def innerFold (r : ResMap) (prog : String) (pkvs : Dict JVal) : ResMap :=
  pkvs.foldl (fun r kv => dictSet r prog (dictSet ((r.lookup prog).getD []) kv.1 kv.2)) r

/-- Boolean success of an `Except` computation. -/
def exceptOk {ε α : Type} : Except ε α → Bool
  | .ok _ => true
  | .error _ => false

/-- Value at a key path of a nested mapping, for stating diff properties. -/
def getPath (d : JObj) : List String → Option JVal
  | [] => none
  | [k] => lookupJ d k
  | k :: ks =>
    match lookupJ d k with
    | some (.obj m) => getPath m ks
    | _ => none

/-- Whether the first character list occurs at the head of the second. -/
def leadMatch : List Char → List Char → Bool
  | [], _ => true
  | _ :: _, [] => false
  | c :: cs, d :: ds => decide (c = d) && leadMatch cs ds

/-- Whether the first character list occurs anywhere inside the second. -/
def hasSub (needle : List Char) : List Char → Bool
  | [] => leadMatch needle []
  | d :: ds => leadMatch needle (d :: ds) || hasSub needle ds

/-- Whether the string `val` occurs anywhere inside the message `msg`; used
to state whether an error message names a value. -/
def strMentions (msg val : String) : Bool :=
  hasSub val.data msg.data

/-! ### Concrete fixtures used by the witness and evaluation theorems -/

/-- Concrete run specification used by the pairing witnesses: three
descriptors over two distinct analysis types (one given with different
letter case), plus a global resources overlay. -/
def wSample1 : Sample :=
  { description := "S1", analysis := some "variant2", algorithm := some (.obj .nil),
    files := some (.str "f1"), resources := some [("toolA", [("memory", .num 2)])],
    other := [] }

def wSample2 : Sample :=
  { description := "S2", analysis := some "Standard", algorithm := none,
    files := none, resources := none, other := [("lane", .num 2)] }

def wSample3 : Sample :=
  { description := "S3", analysis := some "VARIANT2", algorithm := none,
    files := none, resources := none, other := [] }

def wSpec : RunSpec :=
  .mapped [wSample1, wSample2, wSample3] (some [("toolA", [("memory", .num 8)])])

/-- Global overlay used by the C3 witness. -/
def wOverlay : ResMap := [("toolA", [("memory", .num 8)])]

/-- Descriptor with an unregistered analysis value. -/
def wBadSample : Sample :=
  { description := "B1", analysis := some "exome", algorithm := none,
    files := none, resources := none, other := [] }

/-- Descriptor with no analysis key at all. -/
def wNoAnalysis : Sample :=
  { description := "B2", analysis := none, algorithm := none,
    files := none, resources := none, other := [] }

/-- Run specification containing one valid and one unresolvable descriptor. -/
def wBadSpec : RunSpec := .bare [wSample1, wBadSample]

/-- Work units and states used by the watcher theorems. -/
def wUnitOld : JVal :=
  .obj (.cons "a" (.obj (.cons "x" (.num 1) .nil))
    (.cons "b" (.obj (.cons "y" (.num 1) .nil)) .nil))

def wUnitNew : JVal :=
  .obj (.cons "a" (.obj (.cons "x" (.num 2) .nil))
    (.cons "b" (.obj (.cons "y" (.num 2) .nil)) .nil))

def wOrigState : JObj := .cons "u" wUnitOld .nil

def wNewState : JObj := .cons "u" wUnitNew .nil

/-- Naming function for the watcher fixtures (stands in for the external
`dd.get_sample_name`). -/
def wGetName : JVal → String := fun _ => "u"

/-- Enabled watcher state holding the old snapshot as `initialize` left it. -/
def wSt : WWState :=
  { work_dir := "w", is_on := true, out_dir := "w/world2cwl",
    lworld := .asMap wOrigState, lfiles := [] }

/-- Fresh enabled watcher state as `__init__` leaves it. -/
def wSt0 : WWState := (wwMk "w" true ⟨[], []⟩).1

theorem groupPairs_append (l : List (Sample × Pipeline)) (xp : Sample × Pipeline) :
    groupPairs (l ++ [xp]) = addToGroups (groupPairs l) xp.2 [xp.1] := by
  simp [groupPairs, List.foldl_append]

theorem mem_firstKeys {p : Pipeline} : ∀ {l : List (Sample × Pipeline)},
    p ∈ firstKeys l ↔ p ∈ l.map Prod.snd
  | [] => by simp [firstKeys]
  | xp :: rest => by
    by_cases h : p = xp.2
    · simp [firstKeys, h]
    · simp [firstKeys, List.mem_filter, h, @mem_firstKeys p rest]

theorem nodup_firstKeys : ∀ (l : List (Sample × Pipeline)), (firstKeys l).Nodup
  | [] => by simp [firstKeys]
  | xp :: rest => by
    simp only [firstKeys, List.nodup_cons]
    refine ⟨?_, List.Nodup.filter _ (nodup_firstKeys rest)⟩
    intro hmem
    simp [List.mem_filter] at hmem

theorem firstKeys_append_single (xp : Sample × Pipeline) :
    ∀ (l : List (Sample × Pipeline)),
    firstKeys (l ++ [xp]) =
      if xp.2 ∈ l.map Prod.snd then firstKeys l else firstKeys l ++ [xp.2]
  | [] => by simp [firstKeys]
  | yp :: l => by
    have ih := firstKeys_append_single xp l
    by_cases h : xp.2 ∈ l.map Prod.snd
    · have hm2 : xp.2 ∈ (yp :: l).map Prod.snd := by simp [h]
      rw [List.cons_append]
      simp only [firstKeys]
      rw [ih, if_pos h, if_pos hm2]
    · by_cases hxy : xp.2 = yp.2
      · have hm2 : xp.2 ∈ (yp :: l).map Prod.snd := by simp [hxy]
        rw [List.cons_append]
        simp only [firstKeys]
        rw [ih, if_neg h, if_pos hm2, List.filter_append]
        simp [hxy]
      · have hm2 : xp.2 ∉ (yp :: l).map Prod.snd := by simp [hxy, h]
        rw [List.cons_append]
        simp only [firstKeys]
        rw [ih, if_neg h, if_neg hm2, List.filter_append]
        simp [hxy]

theorem groupOf_append_single (l : List (Sample × Pipeline)) (xp : Sample × Pipeline)
    (p : Pipeline) :
    groupOf (l ++ [xp]) p =
      groupOf l p ++ (if xp.2 = p then [[xp.1]] else []) := by
  by_cases h : xp.2 = p <;> simp [groupOf, List.filter_append, h]

theorem groupOf_eq_nil {l : List (Sample × Pipeline)} {p : Pipeline}
    (h : p ∉ l.map Prod.snd) : groupOf l p = [] := by
  have : l.filter (fun xp => decide (xp.2 = p)) = [] := by
    rw [List.filter_eq_nil_iff]
    intro xp hxp
    simp only [decide_eq_true_eq]
    intro he
    exact h (he ▸ List.mem_map_of_mem Prod.snd hxp)
  simp [groupOf, this]

theorem addToGroups_of_not_mem {p : Pipeline} (b : List Sample) :
    ∀ {d : Groups}, p ∉ d.map Prod.fst → addToGroups d p b = d ++ [(p, [b])]
  | [], _ => rfl
  | (q, bs) :: rest, h => by
    simp only [List.map_cons, List.mem_cons, not_or] at h
    obtain ⟨h1, h2⟩ := h
    have hq : q ≠ p := fun he => h1 he.symm
    simp only [addToGroups, if_neg hq, List.cons_append, List.cons.injEq, true_and]
    exact addToGroups_of_not_mem b h2

theorem map_if_id {p : Pipeline} (b : List Sample) {d : Groups}
    (h : ∀ qb ∈ d, qb.1 ≠ p) :
    d.map (fun qb => if qb.1 = p then (qb.1, qb.2 ++ [b]) else qb) = d := by
  rw [@List.map_congr_left _ d _ _ id (fun qb hqb => by simp [h qb hqb]), List.map_id]

theorem addToGroups_of_mem {p : Pipeline} (b : List Sample) :
    ∀ {d : Groups}, (d.map Prod.fst).Nodup → p ∈ d.map Prod.fst →
    addToGroups d p b = d.map (fun qb => if qb.1 = p then (qb.1, qb.2 ++ [b]) else qb)
  | [], _, hm => by simp at hm
  | (q, bs) :: rest, hnd, hm => by
    by_cases hq : q = p
    · subst hq
      have hrest : ∀ qb ∈ rest, qb.1 ≠ q := by
        intro qb hqb he
        simp only [List.map_cons, List.nodup_cons] at hnd
        exact hnd.1 (he ▸ List.mem_map_of_mem Prod.fst hqb)
      simp [addToGroups, map_if_id b hrest]
    · have hm2 : p ∈ rest.map Prod.fst := by
        simp only [List.map_cons, List.mem_cons] at hm
        rcases hm with h1 | h2
        · exact absurd h1.symm hq
        · exact h2
      have hnd2 : (rest.map Prod.fst).Nodup := by
        simp only [List.map_cons, List.nodup_cons] at hnd
        exact hnd.2
      simp [addToGroups, hq, addToGroups_of_mem b hnd2 hm2]

theorem groupPairs_eq : ∀ (ps : List (Sample × Pipeline)), groupPairs ps = groupsSpec ps := by
  intro ps
  induction ps using List.reverseRecOn with
  | nil => rfl
  | append_singleton l xp ih =>
    have hkeys : (groupsSpec l).map Prod.fst = firstKeys l := by
      simp only [groupsSpec, List.map_map]
      exact List.map_id _ ▸ List.map_congr_left (fun p _ => rfl)
    rw [groupPairs_append, ih]
    by_cases h : xp.2 ∈ l.map Prod.snd
    · have hmemk : xp.2 ∈ (groupsSpec l).map Prod.fst := by
        rw [hkeys, mem_firstKeys]; exact h
      have hndk : ((groupsSpec l).map Prod.fst).Nodup := by
        rw [hkeys]; exact nodup_firstKeys l
      rw [addToGroups_of_mem _ hndk hmemk]
      simp only [groupsSpec, List.map_map]
      rw [firstKeys_append_single, if_pos h]
      apply List.map_congr_left
      intro p hp
      by_cases hpe : p = xp.2
      · simp [Function.comp, hpe, groupOf_append_single]
      · have hpe2 : ¬ xp.2 = p := fun he => hpe he.symm
        simp [Function.comp, hpe, groupOf_append_single, hpe2]
    · have hmemk : xp.2 ∉ (groupsSpec l).map Prod.fst := by
        rw [hkeys, mem_firstKeys]; exact h
      rw [addToGroups_of_not_mem _ hmemk]
      simp only [groupsSpec]
      rw [firstKeys_append_single, if_neg h, List.map_append, List.map_singleton]
      have hhead : (firstKeys l).map (fun p => (p, groupOf (l ++ [xp]) p)) =
          (firstKeys l).map (fun p => (p, groupOf l p)) := by
        apply List.map_congr_left
        intro p hp
        have hpe : xp.2 ≠ p := by
          intro he
          exact h (he ▸ (mem_firstKeys.mp hp))
        simp [groupOf_append_single, hpe]
      rw [hhead, groupOf_append_single, groupOf_eq_nil h, if_pos rfl, List.nil_append]

theorem firstKeys_eq_keyDedup : ∀ (l : List (Sample × Pipeline)),
    firstKeys l = keyDedup (l.map Prod.snd)
  | [] => rfl
  | xp :: l => by
    simp only [firstKeys, List.map_cons, keyDedup, firstKeys_eq_keyDedup l]

theorem mem_keyDedup {α : Type} [DecidableEq α] {a : α} :
    ∀ {l : List α}, a ∈ keyDedup l ↔ a ∈ l
  | [] => by simp [keyDedup]
  | b :: l => by
    by_cases h : a = b
    · simp [keyDedup, h]
    · simp [keyDedup, List.mem_filter, h, @mem_keyDedup α _ a l]

theorem keyDedup_map_inj {α β : Type} [DecidableEq α] [DecidableEq β] (f : α → β) :
    ∀ (l : List α), (∀ a ∈ l, ∀ b ∈ l, f a = f b → a = b) →
    keyDedup (l.map f) = (keyDedup l).map f
  | [], _ => rfl
  | a :: l, hinj => by
    have hrec := keyDedup_map_inj f l
      (fun x hx y hy => hinj x (List.mem_cons_of_mem a hx) y (List.mem_cons_of_mem a hy))
    simp only [List.map_cons, keyDedup, hrec, List.filter_map, List.cons.injEq, true_and]
    congr 1
    apply List.filter_congr
    intro x hx
    have hxl : x ∈ l := mem_keyDedup.mp hx
    simp only [Function.comp_apply, decide_eq_decide]
    constructor
    · intro hne he
      exact hne (he ▸ rfl)
    · intro hne he
      exact hne (hinj x (List.mem_cons_of_mem a hxl) a (List.mem_cons_self a l) he)

theorem flatMap_congr_left {α β : Type} {l : List α} {f g : α → List β}
    (h : ∀ a ∈ l, f a = g a) : l.flatMap f = l.flatMap g := by
  induction l with
  | nil => rfl
  | cons a l ih =>
    simp only [List.flatMap_cons, h a (List.mem_cons_self a l),
      ih (fun x hx => h x (List.mem_cons_of_mem a hx))]

theorem flatMap_filter_perm {α κ : Type} [DecidableEq κ] (key : α → κ) :
    ∀ (l : List α) (ks : List κ), ks.Nodup → (∀ x ∈ l, key x ∈ ks) →
    (ks.flatMap (fun k => l.filter (fun x => key x = k))).Perm l
  | [], ks, _, _ => by
    simp
  | x :: l, ks, hnd, hc => by
    obtain ⟨s, t, rfl⟩ := List.append_of_mem (hc x (List.mem_cons_self x l))
    have hnds : s.Nodup := hnd.of_append_left
    have hndt : (key x :: t).Nodup := hnd.of_append_right
    have hsx : key x ∉ s := by
      intro hmem
      exact (List.disjoint_of_nodup_append hnd) hmem (List.mem_cons_self _ _)
    have htx : key x ∉ t := (List.nodup_cons.mp hndt).1
    have hfs : s.flatMap (fun k => (x :: l).filter (fun y => key y = k)) =
        s.flatMap (fun k => l.filter (fun y => key y = k)) := by
      apply flatMap_congr_left
      intro k hk
      have : ¬ (key x = k) := fun he => hsx (he ▸ hk)
      simp [List.filter_cons, this]
    have hft : t.flatMap (fun k => (x :: l).filter (fun y => key y = k)) =
        t.flatMap (fun k => l.filter (fun y => key y = k)) := by
      apply flatMap_congr_left
      intro k hk
      have : ¬ (key x = k) := fun he => htx (he ▸ hk)
      simp [List.filter_cons, this]
    have hmid : (x :: l).filter (fun y => key y = key x) =
        x :: l.filter (fun y => key y = key x) := by
      simp [List.filter_cons]
    rw [List.flatMap_append, List.flatMap_cons, hfs, hft, hmid]
    have hperm1 : (s.flatMap (fun k => l.filter (fun y => key y = k)) ++
        (x :: l.filter (fun y => key y = key x) ++
          t.flatMap (fun k => l.filter (fun y => key y = k)))).Perm
        (x :: (s.flatMap (fun k => l.filter (fun y => key y = k)) ++
          (l.filter (fun y => key y = key x) ++
            t.flatMap (fun k => l.filter (fun y => key y = k))))) := by
      exact List.perm_middle
    refine hperm1.trans (List.Perm.cons x ?_)
    have hreassoc : s.flatMap (fun k => l.filter (fun y => key y = k)) ++
        (l.filter (fun y => key y = key x) ++
          t.flatMap (fun k => l.filter (fun y => key y = k))) =
        (s ++ key x :: t).flatMap (fun k => l.filter (fun y => key y = k)) := by
      rw [List.flatMap_append, List.flatMap_cons]
    rw [hreassoc]
    exact flatMap_filter_perm key l (s ++ key x :: t) hnd
      (fun y hy => hc y (List.mem_cons_of_mem x hy))

/-! ## Registry facts and pairing resolution -/

theorem lookup_mem {β : Type} {k : String} {v : β} :
    ∀ {l : List (String × β)}, l.lookup k = some v → (k, v) ∈ l
  | [], h => by simp [List.lookup] at h
  | (k0, v0) :: rest, h => by
    by_cases he : k = k0
    · subst he
      simp only [List.lookup, beq_self_eq_true] at h
      cases h
      exact List.mem_cons_self _ _
    · have hb : (k == k0) = false := beq_false_of_ne he
      simp only [List.lookup, hb] at h
      exact List.mem_cons_of_mem _ (lookup_mem h)

theorem registry_key_of {k : String} {p : Pipeline}
    (h : SUPPORTED_PIPELINES.lookup k = some p) : k = lowerStr p.name := by
  have hm := lookup_mem h
  simp only [SUPPORTED_PIPELINES, allPipelines, List.map_cons, List.map_nil,
    List.mem_cons, List.not_mem_nil, or_false] at hm
  rcases hm with h | h | h | h | h | h | h | h | h <;>
    (injection h with h1 h2; subst h2; exact h1)

theorem analysisKey_ready (s : Sample) : analysisKey (readySample s) = analysisKey s := rfl

theorem get_pipeline_of_isSome {s : Sample}
    (h : (SUPPORTED_PIPELINES.lookup (analysisKey s)).isSome = true) :
    _get_pipeline s = .ok (pipeOfSample s) := by
  obtain ⟨p, hp⟩ := Option.isSome_iff_exists.mp h
  simp [_get_pipeline, pipeOfSample, hp]

theorem resolvePairs_of_isSome :
    ∀ (l : List Sample),
    (∀ s ∈ l, (SUPPORTED_PIPELINES.lookup (analysisKey s)).isSome = true) →
    resolvePairs l = .ok (l.map (fun x => (x, pipeOfSample x)))
  | [], _ => rfl
  | x :: rest, h => by
    have hx := get_pipeline_of_isSome (h x (List.mem_cons_self x rest))
    have hrest := resolvePairs_of_isSome
      rest (fun s hs => h s (List.mem_cons_of_mem x hs))
    simp [resolvePairs, hx, hrest]

theorem pairing_ok_of_isSome {Config : Type} (upd : Config → Sample → Config)
    (spec : RunSpec) (config : Config)
    (hres : ∀ s ∈ (parseRunSpec spec).1,
      (SUPPORTED_PIPELINES.lookup (analysisKey s)).isSome = true) :
    _pair_samples_with_pipelines upd spec config =
      .ok (groupPairs (pairedOf (parseRunSpec spec).1),
        (parseRunSpec spec).1.foldl
          (fun c s => upd c (scratchSample s (parseRunSpec spec).2)) config) := by
  have hready : ∀ s ∈ (parseRunSpec spec).1.map readySample,
      (SUPPORTED_PIPELINES.lookup (analysisKey s)).isSome = true := by
    intro s hs
    obtain ⟨t, ht, rfl⟩ := List.mem_map.mp hs
    rw [analysisKey_ready]
    exact hres t ht
  have hrp := resolvePairs_of_isSome _ hready
  simp only [_pair_samples_with_pipelines, hrp, List.map_map]
  rfl

theorem flatten_map_singleton {α β : Type} (f : α → β) :
    ∀ (l : List α), (l.map (fun a => [f a])).flatten = l.map f
  | [] => rfl
  | a :: l => by simp [flatten_map_singleton f l]

theorem groupOf_ne_nil {ps : List (Sample × Pipeline)} {p : Pipeline}
    (h : p ∈ ps.map Prod.snd) : groupOf ps p ≠ [] := by
  obtain ⟨xp, hxp, he⟩ := List.mem_map.mp h
  have hmem : xp ∈ ps.filter (fun xp => decide (xp.2 = p)) :=
    List.mem_filter.mpr ⟨hxp, by simp [he]⟩
  intro hnil
  rw [groupOf, List.map_eq_nil_iff] at hnil
  rw [hnil] at hmem
  simp at hmem

theorem allUnits_groupsSpec_perm (ps : List (Sample × Pipeline)) :
    (allUnits (groupsSpec ps)).Perm (ps.map Prod.fst) := by
  have h1 : allUnits (groupsSpec ps) =
      (firstKeys ps).flatMap (fun p => (ps.filter (fun xp => xp.2 = p)).map Prod.fst) := by
    simp only [allUnits, groupsSpec, List.flatMap_map]
    apply flatMap_congr_left
    intro p hp
    exact flatten_map_singleton Prod.fst _
  have h2 : (firstKeys ps).flatMap (fun p => (ps.filter (fun xp => xp.2 = p)).map Prod.fst) =
      ((firstKeys ps).flatMap (fun p => ps.filter (fun xp => xp.2 = p))).map Prod.fst := by
    rw [List.map_flatMap]
  rw [h1, h2]
  exact List.Perm.map Prod.fst
    (flatMap_filter_perm Prod.snd ps (firstKeys ps) (nodup_firstKeys ps)
      (fun xp _ => mem_firstKeys.mpr (List.mem_map_of_mem Prod.snd ‹xp ∈ ps›)))

theorem registry_lookup_injOn {k1 k2 : String} {p : Pipeline}
    (h1 : SUPPORTED_PIPELINES.lookup k1 = some p)
    (h2 : SUPPORTED_PIPELINES.lookup k2 = some p) : k1 = k2 := by
  rw [registry_key_of h1, registry_key_of h2]

theorem keys_groupsSpec (ps : List (Sample × Pipeline)) :
    (groupsSpec ps).map Prod.fst = firstKeys ps := by
  simp only [groupsSpec, List.map_map]
  exact List.map_id _ ▸ List.map_congr_left (fun p _ => rfl)

theorem firstKeys_length_eq (samples : List Sample)
    (hres : ∀ s ∈ samples, (SUPPORTED_PIPELINES.lookup (analysisKey s)).isSome = true) :
    (firstKeys (pairedOf samples)).length =
      (keyDedup (samples.map analysisKey)).length := by
  have hsnd : (pairedOf samples).map Prod.snd =
      (samples.map analysisKey).map
        (fun k => (SUPPORTED_PIPELINES.lookup k).getD .variant2) := by
    rw [pairedOf, List.map_map, List.map_map]
    rfl
  have hinj : ∀ a ∈ samples.map analysisKey, ∀ b ∈ samples.map analysisKey,
      (SUPPORTED_PIPELINES.lookup a).getD .variant2 =
        (SUPPORTED_PIPELINES.lookup b).getD .variant2 → a = b := by
    intro a ha b hb he
    obtain ⟨sa, hsa, rfl⟩ := List.mem_map.mp ha
    obtain ⟨sb, hsb, rfl⟩ := List.mem_map.mp hb
    obtain ⟨pa, hpa⟩ := Option.isSome_iff_exists.mp (hres sa hsa)
    obtain ⟨pb, hpb⟩ := Option.isSome_iff_exists.mp (hres sb hsb)
    rw [hpa, hpb] at he
    simp only [Option.getD_some] at he
    exact registry_lookup_injOn hpa (he ▸ hpb)
  rw [firstKeys_eq_keyDedup, hsnd, keyDedup_map_inj _ _ hinj, List.length_map]

/-! ## C2: resources reset invariant -/

theorem resolvePairs_fst : ∀ {l : List Sample} {ps : List (Sample × Pipeline)},
    resolvePairs l = .ok ps → ps.map Prod.fst = l
  | [], ps, h => by
    cases h
    rfl
  | x :: rest, ps, h => by
    simp only [resolvePairs] at h
    cases hx : _get_pipeline x with
    | error e => rw [hx] at h; cases h
    | ok p =>
      rw [hx] at h
      cases hr : resolvePairs rest with
      | error e => rw [hr] at h; cases h
      | ok ps2 =>
        rw [hr] at h
        cases h
        simp [resolvePairs_fst hr]

/-- C2.  After pairing, every work unit in every returned group carries an
empty `resources` mapping, whatever the raw descriptor or the global overlay
contained. -/
theorem resources_reset_after_pairing {Config : Type} (upd : Config → Sample → Config)
    (spec : RunSpec) (config : Config) (d : Groups) (config2 : Config)
    (h : _pair_samples_with_pipelines upd spec config = .ok (d, config2)) :
    ∀ pb ∈ d, ∀ b ∈ pb.2, ∀ u ∈ b, u.resources = some [] := by
  intro pb hpb b hb u hu
  simp only [_pair_samples_with_pipelines] at h
  cases hrp : resolvePairs ((parseRunSpec spec).1.map readySample) with
  | error e => rw [hrp] at h; cases h
  | ok paired =>
    rw [hrp] at h
    injection h with h1
    injection h1 with hd hc
    subst hd
    rw [groupPairs_eq] at hpb
    obtain ⟨p, hp, rfl⟩ := List.mem_map.mp hpb
    obtain ⟨xp, hxp, rfl⟩ := List.mem_map.mp hb
    rcases List.mem_singleton.mp hu with rfl
    have hfst : xp.1 ∈ paired.map Prod.fst :=
      List.mem_map_of_mem Prod.fst (List.mem_of_mem_filter hxp)
    rw [resolvePairs_fst hrp] at hfst
    obtain ⟨t, ht, he⟩ := List.mem_map.mp hfst
    rw [← he]
    rfl

/-- Witness for C2 at `wSpec` (whose first descriptor and global overlay both
carry `resources` entries): the work unit built from that descriptor comes
out of pairing with an empty resources map. -/
theorem resources_reset_witness :
    (readySample wSample1).resources = some [] :=
  resources_reset_after_pairing (fun (c : List Sample) s => c ++ [s]) wSpec []
    (groupPairs (pairedOf (parseRunSpec wSpec).1))
    ((parseRunSpec wSpec).1.foldl
      (fun c s => c ++ [scratchSample s (parseRunSpec wSpec).2]) [])
    rfl
    (Pipeline.variant2, [[readySample wSample1], [readySample wSample3]]) (by decide)
    [readySample wSample1] (by decide)
    (readySample wSample1) (by decide)

/-! ## C3: global overlay precedence in the configuration merge -/

theorem lookup_dictSet_self {β : Type} (k : String) (v : β) :
    ∀ (m : Dict β), (dictSet m k v).lookup k = some v
  | [] => by simp [dictSet, List.lookup]
  | (k0, v0) :: rest => by
    by_cases he : k0 = k
    · subst he
      simp [dictSet, List.lookup]
    · have hb : (k == k0) = false := beq_false_of_ne (fun x => he x.symm)
      simp only [dictSet, if_neg he, List.lookup, hb]
      exact lookup_dictSet_self k v rest

theorem lookup_dictSet_ne {β : Type} (k : String) (v : β) {k' : String} (h : k' ≠ k) :
    ∀ (m : Dict β), (dictSet m k v).lookup k' = m.lookup k'
  | [] => by
    have hb : (k' == k) = false := beq_false_of_ne h
    simp [dictSet, List.lookup, hb]
  | (k0, v0) :: rest => by
    by_cases he : k0 = k
    · subst he
      have hb : (k' == k0) = false := beq_false_of_ne h
      simp [dictSet, List.lookup, hb]
    · simp only [dictSet, if_neg he, List.lookup]
      cases hb : k' == k0 with
      | true => rfl
      | false => exact lookup_dictSet_ne k v h rest

theorem fold2_preserve (k : String) :
    ∀ (pkvs : Dict JVal) (d0 : Dict JVal), (∀ kv ∈ pkvs, kv.1 ≠ k) →
    (fold2 d0 pkvs).lookup k = d0.lookup k
  | [], _, _ => rfl
  | kv :: pkvs, d0, h => by
    have h1 := h kv (List.mem_cons_self kv pkvs)
    have hrest := fold2_preserve k pkvs
      (dictSet d0 kv.1 kv.2) (fun x hx => h x (List.mem_cons_of_mem kv hx))
    simp only [fold2, List.foldl_cons] at hrest ⊢
    rw [hrest, lookup_dictSet_ne kv.1 kv.2 (fun he => h1 he.symm)]

theorem fold2_cons (d0 : Dict JVal) (kv : String × JVal) (pkvs : Dict JVal) :
    fold2 d0 (kv :: pkvs) = fold2 (dictSet d0 kv.1 kv.2) pkvs := rfl

theorem fold2_lookup {k : String} {v : JVal} :
    ∀ {pkvs : Dict JVal} (d0 : Dict JVal), (pkvs.map Prod.fst).Nodup →
    pkvs.lookup k = some v → (fold2 d0 pkvs).lookup k = some v
  | [], _, _, hv => by simp [List.lookup] at hv
  | (k0, v0) :: pkvs, d0, hnd, hv => by
    simp only [List.map_cons, List.nodup_cons] at hnd
    by_cases he : k = k0
    · subst he
      simp only [List.lookup, beq_self_eq_true] at hv
      injection hv with hv0
      subst hv0
      have hothers : ∀ kv ∈ pkvs, kv.1 ≠ k :=
        fun kv hkv hek => hnd.1 (hek ▸ List.mem_map_of_mem Prod.fst hkv)
      rw [fold2_cons, fold2_preserve k _ _ hothers]
      exact lookup_dictSet_self k _ d0
    · have hb : (k == k0) = false := beq_false_of_ne he
      simp only [List.lookup, hb] at hv
      rw [fold2_cons]
      exact fold2_lookup (dictSet d0 k0 v0) hnd.2 hv

theorem innerFold_cons (r : ResMap) (prog : String) (kv : String × JVal)
    (pkvs : Dict JVal) :
    innerFold r prog (kv :: pkvs) =
      innerFold (dictSet r prog (dictSet ((r.lookup prog).getD []) kv.1 kv.2))
        prog pkvs := rfl

theorem innerFold_lookup_ne {prog q : String} (hq : q ≠ prog) :
    ∀ (pkvs : Dict JVal) (r : ResMap), (innerFold r prog pkvs).lookup q = r.lookup q
  | [], _ => rfl
  | kv :: pkvs, r => by
    rw [innerFold_cons, innerFold_lookup_ne hq pkvs _, lookup_dictSet_ne prog _ hq]

theorem innerFold_lookup_self {prog : String} :
    ∀ (pkvs : Dict JVal) (r : ResMap) (d0 : Dict JVal), r.lookup prog = some d0 →
    (innerFold r prog pkvs).lookup prog = some (fold2 d0 pkvs)
  | [], r, d0, h => by rw [innerFold]; exact h
  | kv :: pkvs, r, d0, h => by
    rw [innerFold_cons, h]
    rw [innerFold_lookup_self pkvs _ (dictSet ((some d0).getD []) kv.1 kv.2)
      (lookup_dictSet_self prog _ _)]
    rfl

/-- One step of the overlay fold in `mergeGlobal`. -/
theorem mergeGlobal_cons (b : ResMap) (q : String) (qkvs : Dict JVal)
    (global : ResMap) :
    mergeGlobal b ((q, qkvs) :: global) =
      mergeGlobal
        (innerFold (if ((b.lookup q).isSome) then b else dictSet b q []) q qkvs)
        global := rfl

theorem mergeGlobal_preserve {prog : String} :
    ∀ {global : ResMap} (b : ResMap), prog ∉ global.map Prod.fst →
    (mergeGlobal b global).lookup prog = b.lookup prog
  | [], _, _ => rfl
  | (q, qkvs) :: global, b, h => by
    simp only [List.map_cons, List.mem_cons, not_or] at h
    have hq : prog ≠ q := h.1
    rw [mergeGlobal_cons, mergeGlobal_preserve _ h.2, innerFold_lookup_ne hq]
    by_cases hb : (b.lookup q).isSome
    · rw [if_pos hb]
    · rw [if_neg hb, lookup_dictSet_ne q _ hq]

theorem mergeGlobal_lookup {prog key : String} {v : JVal} :
    ∀ {global : ResMap} (base : ResMap), (global.map Prod.fst).Nodup →
    (∀ pr ∈ global, (pr.2.map Prod.fst).Nodup) →
    lookupRes global prog key = some v →
    lookupRes (mergeGlobal base global) prog key = some v := by
  intro global
  induction global with
  | nil => intro base _ _ hv; simp [lookupRes, List.lookup] at hv
  | cons pr global ih =>
    intro base hndp hndk hv
    obtain ⟨q, qkvs⟩ := pr
    simp only [List.map_cons, List.nodup_cons] at hndp
    by_cases he : prog = q
    · subst he
      simp only [lookupRes, List.lookup, beq_self_eq_true, Option.bind_eq_bind,
        Option.some_bind] at hv
      have hnq : ∀ x ∈ global, prog ≠ x.1 :=
        fun x hx hex => hndp.1 (hex ▸ List.mem_map_of_mem Prod.fst hx)
      have hnotmem : prog ∉ global.map Prod.fst := by
        intro hm
        obtain ⟨x, hx, hex⟩ := List.mem_map.mp hm
        exact hnq x hx hex.symm
      rw [mergeGlobal_cons, lookupRes, mergeGlobal_preserve _ hnotmem]
      have hqnd : (qkvs.map Prod.fst).Nodup :=
        hndk (prog, qkvs) (List.mem_cons_self _ _)
      by_cases hb : (base.lookup prog).isSome
      · obtain ⟨d0, hd0⟩ := Option.isSome_iff_exists.mp hb
        rw [if_pos hb, innerFold_lookup_self qkvs base d0 hd0]
        simpa using fold2_lookup d0 hqnd hv
      · rw [if_neg hb, innerFold_lookup_self qkvs _ [] (lookup_dictSet_self prog _ _)]
        simpa using fold2_lookup [] hqnd hv
    · have hb2 : (prog == q) = false := beq_false_of_ne he
      simp only [lookupRes, List.lookup, hb2] at hv
      rw [mergeGlobal_cons]
      exact ih _ hndp.2 (fun x hx => hndk x (List.mem_cons_of_mem _ hx)) hv

/-- C3.  In the configuration-merge step, every tool/key of the global
`resources` overlay is set unconditionally on the scratch copy, so the global
value wins over any pre-existing per-sample value; and the shared
configuration returned by pairing is exactly the fold of the external update
over those scratch copies. -/
theorem global_override_precedence (s : Sample) (g : ResMap) (prog key : String)
    (v : JVal) (hndp : (g.map Prod.fst).Nodup)
    (hndk : ∀ pr ∈ g, (pr.2.map Prod.fst).Nodup)
    (hv : lookupRes g prog key = some v) :
    lookupRes ((scratchSample s g).resources.getD []) prog key = some v
    ∧ ∀ (Config : Type) (upd : Config → Sample → Config) (spec : RunSpec)
        (config : Config) (d : Groups) (config2 : Config),
        _pair_samples_with_pipelines upd spec config = .ok (d, config2) →
        config2 = (parseRunSpec spec).1.foldl
          (fun c t => upd c (scratchSample t (parseRunSpec spec).2)) config := by
  constructor
  · exact mergeGlobal_lookup (s.resources.getD []) hndp hndk hv
  · intro Config upd spec config d config2 h
    simp only [_pair_samples_with_pipelines] at h
    cases hrp : resolvePairs ((parseRunSpec spec).1.map readySample) with
    | error e => rw [hrp] at h; cases h
    | ok paired =>
      rw [hrp] at h
      injection h with h1
      injection h1 with hd hc
      exact hc.symm

/-- Witness for C3: the sample carries `toolA.memory = 2`, the overlay
carries `toolA.memory = 8`, and the scratch copy reflects 8. -/
theorem global_override_precedence_witness :
    ((wOverlay.map Prod.fst).Nodup
      ∧ (∀ pr ∈ wOverlay, (pr.2.map Prod.fst).Nodup)
      ∧ lookupRes wOverlay "toolA" "memory" = some (.num 8)
      ∧ lookupRes (wSample1.resources.getD []) "toolA" "memory" = some (.num 2))
    ∧ (lookupRes ((scratchSample wSample1 wOverlay).resources.getD [])
        "toolA" "memory" = some (.num 8)
      ∧ ∀ (Config : Type) (upd : Config → Sample → Config) (spec : RunSpec)
          (config : Config) (d : Groups) (config2 : Config),
          _pair_samples_with_pipelines upd spec config = .ok (d, config2) →
          config2 = (parseRunSpec spec).1.foldl
            (fun c t => upd c (scratchSample t (parseRunSpec spec).2)) config) :=
  ⟨⟨by decide, by decide, by decide, by decide⟩,
    global_override_precedence wSample1 wOverlay "toolA" "memory" (.num 8)
      (by decide) (by decide) (by decide)⟩

/-! ## C4: fatal resolution of analysis types -/

theorem get_pipeline_error_val {x : Sample} {e : String}
    (h : _get_pipeline x = .error e) : e = pipelineErrMsg := by
  unfold _get_pipeline at h
  cases hlk : SUPPORTED_PIPELINES.lookup (analysisKey x) with
  | some p => rw [hlk] at h; cases h
  | none =>
    rw [hlk] at h
    injection h with h1
    exact h1.symm

theorem resolvePairs_error :
    ∀ (l : List Sample),
    (∃ s ∈ l, SUPPORTED_PIPELINES.lookup (analysisKey s) = none) →
    resolvePairs l = .error pipelineErrMsg
  | [], h => by
    obtain ⟨s, hs, _⟩ := h
    simp at hs
  | x :: rest, h => by
    obtain ⟨s, hs, hn⟩ := h
    cases hx : _get_pipeline x with
    | error e =>
      rw [get_pipeline_error_val hx] at hx
      simp [resolvePairs, hx]
    | ok p =>
      rcases List.mem_cons.mp hs with rfl | hmem
      · rw [_get_pipeline, hn] at hx
        cases hx
      · have hrest := resolvePairs_error rest ⟨s, hmem, hn⟩
        simp [resolvePairs, hx, hrest]

/-- C4 as frozen is false of the code: the claim says the fatal error
identifies the unknown analysis type, but `_get_pipeline` logs one fixed
generic message (lines 483-484 of the source) whatever the value is.  At the
concrete descriptor whose analysis value is the unregistered string `exome`,
the error is `pipelineErrMsg`, that message does not contain `exome`, and a
descriptor with no analysis value at all receives the identical message, so
the message cannot identify the offending type. -/
theorem get_pipeline_error_not_identifying :
    _get_pipeline wBadSample = .error pipelineErrMsg
    ∧ wBadSample.analysis = some "exome"
    ∧ strMentions pipelineErrMsg "exome" = false
    ∧ wNoAnalysis.analysis = none
    ∧ _get_pipeline wNoAnalysis = .error pipelineErrMsg := by
  refine ⟨by decide, rfl, by decide, rfl, by decide⟩

/-- C4, as amended.  Pipeline resolution is case-insensitive on the
lowercased analysis value; an absent `analysis` key or any unregistered
value reports the one fixed, generic fatal configuration error
`pipelineErrMsg` — which does not name the offending analysis value — and
one unresolvable descriptor makes the whole pairing fail with that error
before any group is returned (no per-sample skip). -/
theorem get_pipeline_fatal_resolution :
    (∀ s t : Sample, analysisKey s = analysisKey t →
      _get_pipeline s = _get_pipeline t)
    ∧ (∀ s : Sample, s.analysis = none → _get_pipeline s = .error pipelineErrMsg)
    ∧ (∀ s : Sample, SUPPORTED_PIPELINES.lookup (analysisKey s) = none →
        _get_pipeline s = .error pipelineErrMsg)
    ∧ (∀ (Config : Type) (upd : Config → Sample → Config) (spec : RunSpec)
        (config : Config),
        (∃ s ∈ (parseRunSpec spec).1,
          SUPPORTED_PIPELINES.lookup (analysisKey s) = none) →
        _pair_samples_with_pipelines upd spec config = .error pipelineErrMsg) := by
  refine ⟨?_, ?_, ?_, ?_⟩
  · intro s t h
    unfold _get_pipeline
    rw [h]
  · intro s hs
    have hk : analysisKey s = "" := by rw [analysisKey, hs]; rfl
    rw [_get_pipeline, hk]
    rfl
  · intro s hn
    rw [_get_pipeline, hn]
  · intro Config upd spec config hex
    obtain ⟨s, hs, hn⟩ := hex
    have hready : ∃ t ∈ (parseRunSpec spec).1.map readySample,
        SUPPORTED_PIPELINES.lookup (analysisKey t) = none :=
      ⟨readySample s, List.mem_map_of_mem readySample hs,
        by rw [analysisKey_ready]; exact hn⟩
    simp only [_pair_samples_with_pipelines, resolvePairs_error _ hready]

/-- Witness for C4: case-differing analysis values resolve identically, and
both flavours of lookup miss are fatal, also through pairing. -/
theorem get_pipeline_fatal_resolution_witness :
    (analysisKey wSample3 = analysisKey wSample1
      ∧ _get_pipeline wSample3 = _get_pipeline wSample1)
    ∧ (wNoAnalysis.analysis = none
      ∧ _get_pipeline wNoAnalysis = .error pipelineErrMsg)
    ∧ (SUPPORTED_PIPELINES.lookup (analysisKey wBadSample) = none
      ∧ _get_pipeline wBadSample = .error pipelineErrMsg)
    ∧ ((∃ s ∈ (parseRunSpec wBadSpec).1,
        SUPPORTED_PIPELINES.lookup (analysisKey s) = none)
      ∧ _pair_samples_with_pipelines (fun (c : Nat) _ => c) wBadSpec 0 =
          .error pipelineErrMsg) :=
  ⟨⟨by decide, get_pipeline_fatal_resolution.1 wSample3 wSample1 (by decide)⟩,
   ⟨rfl, get_pipeline_fatal_resolution.2.1 wNoAnalysis rfl⟩,
   ⟨by decide, get_pipeline_fatal_resolution.2.2.1 wBadSample (by decide)⟩,
   ⟨⟨wBadSample, by decide, by decide⟩,
    get_pipeline_fatal_resolution.2.2.2 Nat (fun c _ => c) wBadSpec 0
      ⟨wBadSample, by decide, by decide⟩⟩⟩

/-! ## C7: disabled watcher is a no-op -/

theorem runOps_disabled (getName : JVal → String) :
    ∀ (ops : List WWOp) (st : WWState) (fs : FS), st.is_on = false →
    runOps getName st fs ops = .ok (st, [])
  | [], _, _, _ => rfl
  | .initOp w :: rest, st, fs, h => by
    have h1 : wwInit getName st fs w = .ok st := by
      rw [wwInit, h]
      rfl
    simp only [runOps, h1]
    exact runOps_disabled getName rest st fs h
  | .reportOp s w :: rest, st, fs, h => by
    have h1 : wwReport getName st fs s w = .ok (st, none) := by
      rw [wwReport, h]
      rfl
    simp only [runOps, h1, runOps_disabled getName rest st fs h, Option.toList_none,
      List.nil_append]

/-- C7.  A watcher constructed with the flag false creates no output
directory, and any sequence of `initialize` and `report` calls leaves the
watcher state untouched, reads or writes nothing on the filesystem, and
prints no diff reports. -/
theorem watcher_disabled_noop (getName : JVal → String) (wd : String) (fs : FS)
    (ops : List WWOp) :
    (wwMk wd false fs).2 = fs
    ∧ (wwMk wd false fs).1.is_on = false
    ∧ runOps getName (wwMk wd false fs).1 fs ops =
        .ok ((wwMk wd false fs).1, []) :=
  ⟨rfl, rfl, runOps_disabled getName ops _ fs rfl⟩

/-! ## C10: the singleton-batch assertion in `_items_to_world` -/

theorem itemsGo_ok_iff (getName : JVal → String) :
    ∀ (items : List (List JVal)) (w : JObj),
    exceptOk (itemsGo getName w items) = true ↔ ∀ b ∈ items, b.length = 1
  | [], w => by simp [itemsGo, exceptOk]
  | [] :: rest, w => by simp [itemsGo, exceptOk]
  | [x] :: rest, w => by
    simp only [itemsGo]
    rw [itemsGo_ok_iff getName rest (dictSetJ w (getName x) x)]
    simp
  | (x :: y :: tl) :: rest, w => by simp [itemsGo, exceptOk]

/-- C10.  With the watcher enabled, `_items_to_world` (hence `initialize` and
`report`) succeeds exactly when every batch contains one work unit; any other
batch cardinality trips the assertion. -/
theorem items_to_world_singleton (getName : JVal → String) (items : List (List JVal))
    (st : WWState) (fs : FS) (step : String) (hon : st.is_on = true) :
    (exceptOk (_items_to_world getName items) = true ↔ ∀ b ∈ items, b.length = 1)
    ∧ (exceptOk (wwInit getName st fs items) = true ↔ ∀ b ∈ items, b.length = 1)
    ∧ (exceptOk (wwReport getName st fs step items) = true ↔
        ∀ b ∈ items, b.length = 1) := by
  refine ⟨itemsGo_ok_iff getName items .nil, ?_, ?_⟩
  · rw [wwInit, hon]
    cases hiw : _items_to_world getName items with
    | error e =>
      rw [← itemsGo_ok_iff getName items .nil]
      simp [exceptOk, _items_to_world] at hiw ⊢
      simp [hiw]
    | ok m =>
      rw [← itemsGo_ok_iff getName items .nil]
      simp [exceptOk, _items_to_world] at hiw ⊢
      simp [hiw]
  · rw [wwReport, hon]
    cases hiw : _items_to_world getName items with
    | error e =>
      rw [← itemsGo_ok_iff getName items .nil]
      simp [exceptOk, _items_to_world] at hiw ⊢
      simp [hiw]
    | ok m =>
      rw [← itemsGo_ok_iff getName items .nil]
      simp [exceptOk, _items_to_world] at hiw ⊢
      simp [hiw]

/-- Witness for C10: on the enabled state `wSt`, batches of length 0 or 2
trip the assertion and singleton batches do not. -/
theorem items_to_world_singleton_witness :
    wSt.is_on = true
    ∧ ((exceptOk (_items_to_world wGetName [[wUnitOld], [wUnitOld, wUnitNew]]) = true ↔
        ∀ b ∈ [[wUnitOld], [wUnitOld, wUnitNew]], b.length = 1)
      ∧ (exceptOk (wwInit wGetName wSt ⟨[], []⟩ [[wUnitOld], [wUnitOld, wUnitNew]]) = true ↔
        ∀ b ∈ [[wUnitOld], [wUnitOld, wUnitNew]], b.length = 1)
      ∧ (exceptOk (wwReport wGetName wSt ⟨[], []⟩ "s" [[wUnitOld], [wUnitOld, wUnitNew]]) = true ↔
        ∀ b ∈ [[wUnitOld], [wUnitOld, wUnitNew]], b.length = 1)) :=
  ⟨rfl, items_to_world_singleton wGetName [[wUnitOld], [wUnitOld, wUnitNew]]
    wSt ⟨[], []⟩ "s" rfl⟩

/-! ## C5: the state diff drops changed leaves -/

/-- C5 fails on the code: on the previous state
`u = \x7ba: \x7bx: 1\x7d, b: \x7by: 1\x7d\x7d` and new state with both leaves
changed to 2, `_compare_dicts` merges the recursive result for `b` at the
top-level key `u` with `update_in`, wholesale replacing the subtree that
held the change of `a.x`: the changed leaf `u.a.x` is absent from the diff,
and an enabled `report` prints that lossy diff. -/
theorem compare_dicts_drops_changed_leaf :
    _compare_dicts wOrigState wNewState [] =
      .cons "u" (.obj (.cons "b" (.obj (.cons "y" (.num 2) .nil)) .nil)) .nil
    ∧ getPath wNewState ["u", "a", "x"] = some (.num 2)
    ∧ getPath wOrigState ["u", "a", "x"] = some (.num 1)
    ∧ getPath (_compare_dicts wOrigState wNewState []) ["u", "a", "x"] = none
    ∧ wwReport wGetName wSt ⟨[], []⟩ "step1" [[wUnitNew]] =
        .ok ({ wSt with lfiles := [], lworld := .asList [[wUnitNew]] },
          some { step := "step1", file_changes := [],
                 world_changes :=
                   .cons "u" (.obj (.cons "b" (.obj (.cons "y" (.num 2) .nil)) .nil))
                     .nil }) := by
  refine ⟨by decide, by decide, by decide, by decide, by decide⟩

/-! ## C6: `report` stores the raw batch list, not the name map -/

/-- C6 fails on the code: `initialize` stores the name → unit mapping, but
`report` stores the raw list of batches (line 179), so after a `report` the
state snapshot is not the name → unit mapping built from the current
batches; the following `report` therefore diffs against an effectively empty
mapping and reports the whole unchanged state as changed. -/
theorem report_stores_raw_batches :
    (wwInit wGetName wSt0 ⟨[], []⟩ [[wUnitOld]]).map (fun st => st.lworld) =
      .ok (.asMap (.cons "u" wUnitOld .nil))
    ∧ (wwReport wGetName wSt ⟨[], []⟩ "step1" [[wUnitNew]]).map
        (fun x => x.1.lworld) = .ok (.asList [[wUnitNew]])
    ∧ WorldSnap.asList [[wUnitNew]] ≠ WorldSnap.asMap (.cons "u" wUnitNew .nil)
    ∧ wwReport wGetName { wSt with lworld := .asList [[wUnitNew]] } ⟨[], []⟩
        "step2" [[wUnitNew]] =
      .ok ({ wSt with lworld := .asList [[wUnitNew]] },
        some { step := "step2", file_changes := [], world_changes := wNewState }) := by
  refine ⟨by decide, by decide, by decide, by decide⟩

/-! ## C8: alias equivalence of pipeline variants -/

/-- C8.  The aliased variants resolve to the run procedure of their base
class, so on identical inputs they drive the work units through an identical
step sequence and return an identical output batch. -/
theorem alias_equivalence :
    pipelineSteps .snpCalling = pipelineSteps .variant2
    ∧ pipelineSteps .variant = pipelineSteps .variant2
    ∧ pipelineSteps .minimal = pipelineSteps .standard
    ∧ (∀ (sched : String → List (List JVal) → List (List JVal)) (w : List (List JVal)),
        Pipeline.runWith .snpCalling sched w = Pipeline.runWith .variant2 sched w)
    ∧ (∀ (sched : String → List (List JVal) → List (List JVal)) (w : List (List JVal)),
        Pipeline.runWith .variant sched w = Pipeline.runWith .variant2 sched w)
    ∧ (∀ (sched : String → List (List JVal) → List (List JVal)) (w : List (List JVal)),
        Pipeline.runWith .minimal sched w = Pipeline.runWith .standard sched w) :=
  ⟨rfl, rfl, rfl, fun _ _ => rfl, fun _ _ => rfl, fun _ _ => rfl⟩

/-! ## C9: execution-mode dispatch in `run_main` -/

/-- C9.  Cluster-scheduler mode without a scheduler is fatal; with a
non-`sge` scheduler a missing queue is fatal; for `sge` a missing or empty
queue is defaulted to the empty string; and an unrecognized execution mode
raises before anything runs. -/
theorem run_main_mode_errors :
    (∀ q : Option String,
      run_main ⟨"ipython", none, q⟩ = .error .missingScheduler)
    ∧ (∀ s : String, s ≠ "sge" →
        run_main ⟨"ipython", some s, none⟩ = .error .missingQueue)
    ∧ run_main ⟨"ipython", some "sge", none⟩ = .ok ⟨"ipython", some "sge", some ""⟩
    ∧ run_main ⟨"ipython", some "sge", some ""⟩ = .ok ⟨"ipython", some "sge", some ""⟩
    ∧ (∀ t : String, t ≠ "local" → t ≠ "clusterk" → t ≠ "ipython" →
        ∀ (sch q : Option String),
        run_main ⟨t, sch, q⟩ = .error (.unexpectedParallelType t)) := by
  refine ⟨fun q => rfl, ?_, rfl, rfl, ?_⟩
  · intro s hs
    simp [run_main, hs]
  · intro t h1 h2 h3 sch q
    simp [run_main, h1, h2, h3]

/-- Witness for C9 with a non-exempt scheduler and an unknown mode. -/
theorem run_main_mode_errors_witness :
    ("slurm" ≠ "sge"
      ∧ run_main ⟨"ipython", some "slurm", none⟩ = .error .missingQueue)
    ∧ (("torque" ≠ "local" ∧ "torque" ≠ "clusterk" ∧ "torque" ≠ "ipython")
      ∧ run_main ⟨"torque", some "sge", some "batch"⟩ =
          .error (.unexpectedParallelType "torque")) :=
  ⟨⟨by decide, run_main_mode_errors.2.1 "slurm" (by decide)⟩,
   ⟨⟨by decide, by decide, by decide⟩,
    run_main_mode_errors.2.2.2.2 "torque" (by decide) (by decide) (by decide)
      (some "sge") (some "batch")⟩⟩

end BcbioMain
